import Mathlib

/-!
Shallow embedding of `lib/SIL/SILGen/SILGen.cpp`: the SIL lowering layer
consisting of `SILGenFunction` (per-function lowering context with epilogue
synthesis in its destructor), `SILGenModule` (emission orchestration over the
function table), `SILGenType` (destructor guarantee at type scope exit) and
`SILModule::constructSIL` (module construction entry point).

IR primitives invoked by this file (basic-block creation, `createEmptyTuple`,
`createReturn`, `createUnreachable`, the cleanup manager's emission) live in
source files outside the repository snapshot; they are modelled from the spec
where noted.
-/

namespace SILGen

/-- A SIL value is identified by the numeric id of the instruction that
produced it (ids are handed out by a per-function counter). -/
abbrev Value := Nat

/-- Non-terminator instructions that this layer emits: empty-tuple
construction, cleanup code (identified by the cleanup's id), and opaque body
instructions emitted by the AST-walking body lowering. -/
inductive Instr where
  | emptyTuple (result : Value)
  | cleanup (id : Nat)
  | other (id : Nat)
  deriving DecidableEq, Repr

/-- Block terminators: return-with-value, the unreachable marker, and an
unconditional branch to the block with the given index. -/
inductive Terminator where
  | ret (v : Value)
  | unreachable
  | br (target : Nat)
  deriving DecidableEq, Repr

/-- A basic block: an ordered instruction list and at most one terminator.
A block whose `term` is `none` is open (unterminated). -/
structure BasicBlock where
  instrs : List Instr
  term : Option Terminator
  deriving DecidableEq, Repr

/-- An IR Function: an ordered sequence of basic blocks (`swift::Function`).
The type signature is not modelled; only the control-flow discipline matters
to this layer. -/
structure Function where
  blocks : List BasicBlock
  deriving DecidableEq, Repr

/-- Number of open (unterminated) blocks of a function. -/
def Function.openBlocks (F : Function) : Nat :=
  F.blocks.countP (fun bb => bb.term.isNone)

/-- Update the element at index `n` of a list by `f`; out-of-range indices
leave the list unchanged. -/
def updAt {α : Type} : List α → Nat → (α → α) → List α
  | [], _, _ => []
  | a :: as, 0, f => f a :: as
  | a :: as, n + 1, f => a :: updAt as n f

theorem updAt_length {α : Type} (l : List α) (n : Nat) (f : α → α) :
    (updAt l n f).length = l.length := by
  induction l generalizing n with
  | nil => rfl
  | cons a as ih =>
    cases n with
    | zero => rfl
    | succ m => simp [updAt, ih]

theorem get?_updAt_eq {α : Type} (l : List α) (n : Nat) (f : α → α) :
    (updAt l n f).get? n = (l.get? n).map f := by
  induction l generalizing n with
  | nil => cases n <;> rfl
  | cons a as ih =>
    cases n with
    | zero => rfl
    | succ m => simpa [updAt] using ih m

theorem get?_updAt_ne {α : Type} (l : List α) (n m : Nat) (f : α → α)
    (h : m ≠ n) : (updAt l n f).get? m = l.get? m := by
  induction l generalizing n m with
  | nil => cases n <;> rfl
  | cons a as ih =>
    cases n with
    | zero =>
      cases m with
      | zero => exact absurd rfl h
      | succ k => rfl
    | succ n' =>
      cases m with
      | zero => rfl
      | succ k =>
        simpa [updAt] using ih n' k (fun hk => h (by simp [hk]))

theorem updAt_congr {α : Type} (l : List α) (n : Nat) (f g : α → α)
    (h : ∀ a, f a = g a) : updAt l n f = updAt l n g := by
  induction l generalizing n with
  | nil => rfl
  | cons a as ih =>
    cases n with
    | zero => simp [updAt, h]
    | succ m => simp [updAt, ih]

theorem updAt_id {α : Type} (l : List α) (n : Nat) :
    updAt l n (fun a => a) = l := by
  induction l generalizing n with
  | nil => rfl
  | cons a as ih =>
    cases n with
    | zero => rfl
    | succ m => simp [updAt, ih]

theorem updAt_updAt {α : Type} (l : List α) (n : Nat) (f g : α → α) :
    updAt (updAt l n f) n g = updAt l n (fun a => g (f a)) := by
  induction l generalizing n with
  | nil => rfl
  | cons a as ih =>
    cases n with
    | zero => rfl
    | succ m => simp [updAt, ih]

/-- The per-function lowering context (`swift::Lowering::SILGenFunction`
together with its `SILBuilder B`): the in-progress function, the builder's
insertion point (`some b` names the open block instructions are appended to,
`none` means no valid insertion point), the id counter for instruction
results, the cleanup stack (head = most recently pushed), the
`hasVoidReturn` flag and the (never assigned in this layer) `epilogBB`. -/
structure SILGenFunction where
  F : Function
  insertPt : Option Nat
  nextValueId : Nat
  cleanups : List Nat
  hasVoidReturn : Bool
  epilogBB : Option Nat
  deriving DecidableEq, Repr

/-- SILGenFunction constructor: given the shell function allocated by
`preEmitFunction`, create a fresh entry basic block in it
(`B(new (F.getModule()) BasicBlock(&F), F)`) and make it the insertion
point; the cleanup stack starts empty and `epilogBB` is null. -/
def SILGenFunction.create (shell : Function) (hasVoidReturn : Bool) :
    SILGenFunction :=
  { F := ⟨shell.blocks ++ [⟨[], none⟩]⟩
    insertPt := some shell.blocks.length
    nextValueId := 0
    cleanups := []
    hasVoidReturn := hasVoidReturn
    epilogBB := none }

/-- Modelled from the spec: the builder's instruction append (the
`SILBuilder` is outside this file). Instructions are appended to the current
open block; instructions are never appended when the insertion point is
invalid. -/
def appendInstr (s : SILGenFunction) (i : Instr) : SILGenFunction :=
  match s.insertPt with
  | none => s
  | some b =>
    { s with F := ⟨updAt s.F.blocks b
        (fun bb => ⟨bb.instrs ++ [i], bb.term⟩)⟩ }

/-- Modelled from the spec: `SILBuilder::createEmptyTuple` constructs an
empty-tuple value at the current point; the result id is fresh (the next
value of the per-function counter). -/
def createEmptyTuple (s : SILGenFunction) : Value × SILGenFunction :=
  (s.nextValueId,
   { appendInstr s (Instr.emptyTuple s.nextValueId) with
       nextValueId := s.nextValueId + 1 })

/-- Modelled from the spec: emitting a terminator into the current block
always invalidates the insertion point. -/
def setTerminator (s : SILGenFunction) (t : Terminator) : SILGenFunction :=
  match s.insertPt with
  | none => s
  | some b =>
    { s with
        F := ⟨updAt s.F.blocks b (fun bb => ⟨bb.instrs, some t⟩)⟩
        insertPt := none }

/-- Modelled from the spec: `SILBuilder::createReturn` (return-with-value
terminator). -/
def createReturn (s : SILGenFunction) (v : Value) : SILGenFunction :=
  setTerminator s (Terminator.ret v)

/-- Modelled from the spec: `SILBuilder::createUnreachable` (unreachable
marker terminator). -/
def createUnreachable (s : SILGenFunction) : SILGenFunction :=
  setTerminator s Terminator.unreachable

/-- `CleanupManager::push`: push one scope-exit action (identified by id)
onto the cleanup stack. -/
def pushCleanup (s : SILGenFunction) (id : Nat) : SILGenFunction :=
  { s with cleanups := id :: s.cleanups }

/-- Modelled from the spec: the Cleanup Stack's `emitAll` — emit every
currently-stacked action's cleanup code in reverse push order (most recently
pushed first; the stack stores most-recent first) against the current
insertion point. -/
def emitCleanups (s : SILGenFunction) : SILGenFunction :=
  s.cleanups.foldl (fun st c => appendInstr st (Instr.cleanup c)) s

/-- Modelled from the spec: `CleanupManager::emitReturnAndCleanups` — emit
all cleanups in reverse push order, then a return-with-value terminator
using the given value. -/
def emitReturnAndCleanups (s : SILGenFunction) (v : Value) : SILGenFunction :=
  createReturn (emitCleanups s) v

/-- SILGenFunction destructor (`SILGenFunction::~SILGenFunction`): the
"falling off the end of the function" epilogue synthesis. If the insertion
point is invalid, do nothing; otherwise, for a void-returning function
construct an empty tuple and return it through the cleanups, and for a
non-void function emit the unreachable marker. -/
def emitEpilogue (s : SILGenFunction) : SILGenFunction :=
  match s.insertPt, s.hasVoidReturn with
  | none, _ => s
  | some _, true =>
    let p := createEmptyTuple s
    emitReturnAndCleanups p.2 p.1
  | some _, false => createUnreachable s

/-- Whether the block at index `i` is terminated (out-of-range counts as
terminated). -/
def blockTerminated (F : Function) (i : Nat) : Bool :=
  ((F.blocks.get? i).map (fun bb => bb.term.isSome)).getD true

/-- Builder well-formedness: the insertion point (when valid) names an open
in-range block, and every block other than the insertion point's is
terminated. This is the invariant the AST-walking body lowering maintains. -/
def SILGenFunction.wfInsertion (s : SILGenFunction) : Bool :=
  (s.insertPt.all fun b =>
    ((s.F.blocks.get? b).map (fun bb => bb.term.isNone)).getD false)
  && ((List.range s.F.blocks.length).all fun i =>
        (s.insertPt == some i) || blockTerminated s.F i)

/-- Modelled from the spec: the AST-walking body lowering (the
`SILGenFunction::emit*` bodies live outside this file). A body is abstracted
as a list of lowering operations against the context: append an opaque
instruction, push a cleanup, an explicit `return` of void (cleanups then a
return of a fresh empty tuple), and opening a fresh block reached by an
unconditional branch. -/
inductive LowerOp where
  | emitInstr (id : Nat)
  | pushCleanup (id : Nat)
  | retUnit
  | branchNewBlock
  deriving DecidableEq, Repr

/-- Run one body-lowering operation against the context. -/
def runOp (s : SILGenFunction) : LowerOp → SILGenFunction
  | LowerOp.emitInstr id => appendInstr s (Instr.other id)
  | LowerOp.pushCleanup id => pushCleanup s id
  | LowerOp.retUnit =>
    match s.insertPt with
    | none => s
    | some _ =>
      let p := createEmptyTuple s
      emitReturnAndCleanups p.2 p.1
  | LowerOp.branchNewBlock =>
    match s.insertPt with
    | none => s
    | some _ =>
      let n := s.F.blocks.length
      let s' := setTerminator s (Terminator.br n)
      { s' with F := ⟨s'.F.blocks ++ [⟨[], none⟩]⟩, insertPt := some n }

/-- Run a whole body against the context. -/
def runBody (ops : List LowerOp) (s : SILGenFunction) : SILGenFunction :=
  ops.foldl runOp s

/-- The full per-function lowering flow driven by the orchestrator: create
the context over an empty shell, lower the body, and run the destructor's
epilogue synthesis. -/
def lowerBody (hasVoidReturn : Bool) (ops : List LowerOp) : Function :=
  (emitEpilogue (runBody ops (SILGenFunction.create ⟨[]⟩ hasVoidReturn))).F

/-- The sub-role of an Emission Key (`SILConstant`'s kind). The explicit
forms appearing in this file are `Initializer` and `Destructor`; `Plain` and
`Allocator` name default (no-role) references per the spec's vocabulary. -/
inductive Role where
  | Plain
  | Initializer
  | Destructor
  | Allocator
  deriving DecidableEq, Repr

/-- An Emission Key (`SILConstant`): the originating declaration's identity
together with a role. -/
structure SILConstant where
  loc : Nat
  role : Role
  deriving DecidableEq, Repr

/-- A source-language type, only as far as this layer inspects it: either
the canonical empty tuple type or some other type. -/
inductive Ty where
  | emptyTuple
  | other (id : Nat)
  deriving DecidableEq, Repr

/-- `isVoidableType`: whether the type equals the AST context's canonical
empty tuple type. -/
def isVoidableType (t : Ty) : Bool :=
  t = Ty.emptyTuple

/-- A `FuncExpr` as this layer inspects it: an optional body (absent for
prototypes) and the declared result type. -/
structure FuncExpr where
  body : Option (List LowerOp)
  resultType : Ty
  deriving DecidableEq, Repr

/-- A `ConstructorDecl` as this layer inspects it: the declaration identity,
an optional body, and whether the implicit `this` declaration's type has
reference semantics. -/
structure ConstructorDecl where
  declId : Nat
  body : Option (List LowerOp)
  thisHasReferenceSemantics : Bool
  deriving DecidableEq, Repr

/-- Modelled from the spec: the role of the bare `SILConstant(decl)` form
for a constructor declaration (`SILConstant`'s own definition is outside
this file). Per the spec, a reference-semantics constructor's default entry
point is the allocator (role Allocator), while a value-semantics
constructor's single function has role Plain. -/
def ConstructorDecl.defaultRole (cd : ConstructorDecl) : Role :=
  if cd.thisHasReferenceSemantics then Role.Allocator else Role.Plain

/-- The output `SILModule`: the Function Table (Emission Key to IR Function,
in emission order) and the optional implicit top-level IR Function. -/
structure SILModuleS where
  functions : List (SILConstant × Function)
  toplevel : Option Function
  deriving DecidableEq, Repr

/-- `SILModule::hasFunction`: whether the Function Table has an entry for
the given Emission Key. -/
def SILModuleS.hasFunction (m : SILModuleS) (c : SILConstant) : Bool :=
  m.functions.any (fun p => decide (p.1 = c))

/-- The programming-error-class faults of this layer (C++ assertions). -/
inductive Fault where
  | duplicateEmission
  | destructorInNonClass
  deriving DecidableEq, Repr

/-- `SILGenModule::preEmitFunction`: assert that no function for the
Emission Key was already generated (duplicate emission is a
programming-error-class fault raised before the table is touched), then
allocate a fresh shell Function. Verbose dumping is a side effect with no
bearing on correctness and is not modelled. -/
def preEmitFunction (c : SILConstant) (m : SILModuleS) :
    Except Fault Function :=
  if m.hasFunction c then Except.error Fault.duplicateEmission
  else Except.ok ⟨[]⟩

/-- `SILGenModule::postEmitFunction`: record the finished function in the
Function Table under its Emission Key. Verification (`F->verify()`) is an
opaque pass/fail oracle external to this layer and is not modelled. -/
def postEmitFunction (c : SILConstant) (f : Function) (m : SILModuleS) :
    SILModuleS :=
  { m with functions := m.functions ++ [(c, f)] }

/-- `SILGenModule::emitFunction`: skip prototypes entirely; otherwise
preEmit the Plain key, lower the body in a context whose voidability is
computed from the declared result type, and postEmit. -/
def emitFunction (declId : Nat) (fe : FuncExpr) (m : SILModuleS) :
    Except Fault SILModuleS :=
  match fe.body with
  | none => Except.ok m
  | some ops =>
    let constant : SILConstant := ⟨declId, Role.Plain⟩
    match preEmitFunction constant m with
    | Except.error e => Except.error e
    | Except.ok shell =>
      let hasVoidReturn := isVoidableType fe.resultType
      let f := (emitEpilogue (runBody ops
                 (SILGenFunction.create shell hasVoidReturn))).F
      Except.ok (postEmitFunction constant f m)

/-- `SILGenModule::emitConstructor`: skip prototypes; for reference
semantics, emit separate allocator and initializer entry points (each
independently preEmit/postEmit'd, each in a voidable context); for value
semantics, emit a single voidable function. The constructor body-lowering
routines (`emitClassConstructorAllocator`, `emitClassConstructorInitializer`,
`emitValueConstructor`) are outside this file and are abstracted as runs of
the declaration's body operations. -/
def emitConstructor (cd : ConstructorDecl) (m : SILModuleS) :
    Except Fault SILModuleS :=
  match cd.body with
  | none => Except.ok m
  | some ops =>
    let constant : SILConstant := ⟨cd.declId, cd.defaultRole⟩
    match preEmitFunction constant m with
    | Except.error e => Except.error e
    | Except.ok shell =>
      if cd.thisHasReferenceSemantics then
        let f := (emitEpilogue (runBody ops
                   (SILGenFunction.create shell true))).F
        let m1 := postEmitFunction constant f m
        let initConstant : SILConstant := ⟨cd.declId, Role.Initializer⟩
        match preEmitFunction initConstant m1 with
        | Except.error e => Except.error e
        | Except.ok initShell =>
          let initF := (emitEpilogue (runBody ops
                         (SILGenFunction.create initShell true))).F
          Except.ok (postEmitFunction initConstant initF m1)
      else
        let f := (emitEpilogue (runBody ops
                   (SILGenFunction.create shell true))).F
        Except.ok (postEmitFunction constant f m)

/-- `SILGenModule::emitClosure`: closures always have a body; one Plain key,
one context, never voidable. -/
def emitClosure (ceId : Nat) (ops : List LowerOp) (m : SILModuleS) :
    Except Fault SILModuleS :=
  let constant : SILConstant := ⟨ceId, Role.Plain⟩
  match preEmitFunction constant m with
  | Except.error e => Except.error e
  | Except.ok shell =>
    let f := (emitEpilogue (runBody ops
               (SILGenFunction.create shell false))).F
    Except.ok (postEmitFunction constant f m)

/-- `SILGenModule::emitDestructor`: one Destructor-role key, one voidable
context; the explicit destructor declaration may be absent, in which case
the same lowering call still runs (`SILGenFunction::emitDestructor` is
outside this file; an absent explicit destructor is abstracted as an empty
body). -/
def emitDestructor (cdId : Nat) (dd : Option (List LowerOp))
    (m : SILModuleS) : Except Fault SILModuleS :=
  let constant : SILConstant := ⟨cdId, Role.Destructor⟩
  match preEmitFunction constant m with
  | Except.error e => Except.error e
  | Except.ok shell =>
    let f := (emitEpilogue (runBody (dd.getD [])
               (SILGenFunction.create shell true))).F
    Except.ok (postEmitFunction constant f m)

/-- A nominal type declaration as this layer inspects it: its identity and
whether it is a class declaration (`dyn_cast<ClassDecl>` succeeds, i.e. the
type has reference semantics). -/
structure NominalTypeDecl where
  declId : Nat
  isClass : Bool
  deriving DecidableEq, Repr

/-- The Type Lowering Coordinator (`SILGenType`): the type being lowered and
the explicit destructor registered while in scope, if any. -/
structure SILGenType where
  theType : NominalTypeDecl
  explicitDestructor : Option (List LowerOp)
  deriving DecidableEq, Repr

/-- `SILGenType::SILGenType`: record the type; no explicit destructor yet. -/
def SILGenType.start (t : NominalTypeDecl) : SILGenType :=
  ⟨t, none⟩

/-- `SILGenType::~SILGenType`: at scope exit, emit the destructor for a
class type (with whatever explicit destructor was registered, possibly
absent); for a non-class type, assert that no explicit destructor was
registered. -/
def SILGenType.finish (sgt : SILGenType) (m : SILModuleS) :
    Except Fault SILModuleS :=
  if sgt.theType.isClass then
    emitDestructor sgt.theType.declId sgt.explicitDestructor m
  else if sgt.explicitDestructor.isSome then
    Except.error Fault.destructorInNonClass
  else
    Except.ok m

/-- The translation unit's declared kind (`TranslationUnit::Kind`). -/
inductive TUKind where
  | Library
  | Main
  | Repl
  deriving DecidableEq, Repr

/-- A top-level declaration as dispatched by the orchestrator's visitor.
`func` is visited by `visitFuncDecl`; `patternBinding` by
`visitPatternBindingDecl` (accessor synthesis for globals is deferred — a
sanctioned no-op); `constructor` and `topLevelCode` are routed by visitor
cases outside this file and are modelled from the spec: a constructor
dispatches to the constructor emission policy, and top-level code is
lowered into the implicit top-level execution context when one exists. -/
inductive Decl where
  | func (declId : Nat) (fe : FuncExpr)
  | constructor (cd : ConstructorDecl)
  | patternBinding
  | topLevelCode (ops : List LowerOp)
  deriving DecidableEq, Repr

/-- A translation unit: its kind and its top-level declarations in source
order. -/
structure TranslationUnit where
  kind : TUKind
  decls : List Decl
  deriving DecidableEq, Repr

/-- The module-level lowering state: the output module plus the top-level
lowering context (`SILGenModule::TopLevelSGF`), present when the module was
constructed with a top-level function. -/
structure SGMState where
  m : SILModuleS
  topLevelSGF : Option SILGenFunction
  deriving DecidableEq, Repr

/-- `SILGenModule::SILGenModule` (after `SILModule`'s constructor): when the
module has a top-level function, wrap it in a lowering context with
`hasVoidReturn = true`. -/
def SILGenModule.start (hasTopLevel : Bool) : SGMState :=
  { m := { functions := [], toplevel := none }
    topLevelSGF :=
      if hasTopLevel then some (SILGenFunction.create ⟨[]⟩ true) else none }

/-- `SILGenModule::~SILGenModule` (`delete TopLevelSGF`): destroying the
top-level context runs its epilogue synthesis, finalizing the module's
top-level function. -/
def SILGenModule.finish (s : SGMState) : SILModuleS :=
  match s.topLevelSGF with
  | none => s.m
  | some sgf => { s.m with toplevel := some (emitEpilogue sgf).F }

/-- The orchestrator's per-declaration dispatch (`SILGenModule::visit`). -/
def visitDecl (d : Decl) (s : SGMState) : Except Fault SGMState :=
  match d with
  | Decl.func declId fe =>
    match emitFunction declId fe s.m with
    | Except.error e => Except.error e
    | Except.ok m' => Except.ok { s with m := m' }
  | Decl.constructor cd =>
    match emitConstructor cd s.m with
    | Except.error e => Except.error e
    | Except.ok m' => Except.ok { s with m := m' }
  | Decl.patternBinding => Except.ok s
  | Decl.topLevelCode ops =>
    Except.ok { s with topLevelSGF := s.topLevelSGF.map (runBody ops) }

/-- Dispatch every declaration in source order, stopping at the first
fault. -/
def runDecls : List Decl → SGMState → Except Fault SGMState
  | [], s => Except.ok s
  | d :: ds, s =>
    match visitDecl d s with
    | Except.error e => Except.error e
    | Except.ok s' => runDecls ds s'

/-- `SILModule::constructSIL`: decide from the translation unit's kind
whether the module needs an implicit top-level execution context (true for
Main and Repl, false for Library), construct the module and orchestrator
accordingly, visit every declaration in source order, and return the
completed module (the orchestrator's destruction finalizes the top-level
function). -/
def constructSIL (tu : TranslationUnit) : Except Fault SILModuleS :=
  let hasTopLevel :=
    match tu.kind with
    | TUKind.Library => false
    | TUKind.Main => true
    | TUKind.Repl => true
  match runDecls tu.decls (SILGenModule.start hasTopLevel) with
  | Except.error e => Except.error e
  | Except.ok s => Except.ok (SILGenModule.finish s)

theorem appendInstr_eq (s : SILGenFunction) (b : Nat) (i : Instr)
    (hip : s.insertPt = some b) :
    appendInstr s i
      = { s with F := ⟨updAt s.F.blocks b
            (fun bb => ⟨bb.instrs ++ [i], bb.term⟩)⟩ } := by
  simp [appendInstr, hip]

theorem foldl_cleanup (cs : List Nat) (s : SILGenFunction) (b : Nat)
    (hip : s.insertPt = some b) :
    cs.foldl (fun st c => appendInstr st (Instr.cleanup c)) s
      = { s with F := ⟨updAt s.F.blocks b
            (fun bb => ⟨bb.instrs ++ cs.map Instr.cleanup, bb.term⟩)⟩ } := by
  obtain ⟨⟨blocks⟩, ip, nv, cl, hvr, eb⟩ := s
  obtain rfl : ip = some b := hip
  induction cs generalizing blocks with
  | nil =>
    simp only [List.foldl_nil]
    have h1 : updAt blocks b
        (fun bb => ⟨bb.instrs ++ List.map Instr.cleanup [], bb.term⟩)
        = blocks := by
      rw [updAt_congr blocks b _ (fun a => a) (fun a => by simp)]
      exact updAt_id _ _
    rw [h1]
  | cons c cs ih =>
    rw [List.foldl_cons]
    have h2 : appendInstr ⟨⟨blocks⟩, some b, nv, cl, hvr, eb⟩
        (Instr.cleanup c)
        = ⟨⟨updAt blocks b
            (fun bb => ⟨bb.instrs ++ [Instr.cleanup c], bb.term⟩)⟩,
           some b, nv, cl, hvr, eb⟩ := rfl
    rw [h2]
    rw [ih (updAt blocks b
          (fun bb => ⟨bb.instrs ++ [Instr.cleanup c], bb.term⟩))]
    simp only [updAt_updAt, List.map_cons]
    congr 2
    exact updAt_congr _ _ _ _ (fun a => by simp)

theorem emitEpilogue_none (s : SILGenFunction) (hip : s.insertPt = none) :
    emitEpilogue s = s := by
  simp [emitEpilogue, hip]

theorem emitEpilogue_void (s : SILGenFunction) (b : Nat)
    (hip : s.insertPt = some b) (hv : s.hasVoidReturn = true) :
    emitEpilogue s
      = { s with
            F := ⟨updAt s.F.blocks b (fun bb =>
              ⟨bb.instrs ++ Instr.emptyTuple s.nextValueId ::
                 s.cleanups.map Instr.cleanup,
               some (Terminator.ret s.nextValueId)⟩)⟩
            insertPt := none
            nextValueId := s.nextValueId + 1 } := by
  obtain ⟨⟨blocks⟩, ip, nv, cl, hvr, eb⟩ := s
  obtain rfl : ip = some b := hip
  obtain rfl : hvr = true := hv
  have h0 : emitEpilogue ⟨⟨blocks⟩, some b, nv, cl, true, eb⟩
      = createReturn
          (emitCleanups
            ⟨⟨updAt blocks b
                (fun bb => ⟨bb.instrs ++ [Instr.emptyTuple nv], bb.term⟩)⟩,
             some b, nv + 1, cl, true, eb⟩) nv := rfl
  rw [h0]
  have h2 : emitCleanups
      ⟨⟨updAt blocks b
          (fun bb => ⟨bb.instrs ++ [Instr.emptyTuple nv], bb.term⟩)⟩,
       some b, nv + 1, cl, true, eb⟩
      = ⟨⟨updAt (updAt blocks b
            (fun bb => ⟨bb.instrs ++ [Instr.emptyTuple nv], bb.term⟩)) b
            (fun bb => ⟨bb.instrs ++ cl.map Instr.cleanup, bb.term⟩)⟩,
         some b, nv + 1, cl, true, eb⟩ :=
    foldl_cleanup cl _ b rfl
  rw [h2]
  have h1 : ∀ blocks2 : List BasicBlock,
      createReturn ⟨⟨blocks2⟩, some b, nv + 1, cl, true, eb⟩ nv
        = ⟨⟨updAt blocks2 b
              (fun bb => ⟨bb.instrs, some (Terminator.ret nv)⟩)⟩,
           none, nv + 1, cl, true, eb⟩ := fun blocks2 => rfl
  rw [h1]
  simp only [updAt_updAt]
  congr 2
  exact updAt_congr _ _ _ _ (fun a => by simp)

theorem emitEpilogue_nonvoid (s : SILGenFunction) (b : Nat)
    (hip : s.insertPt = some b) (hv : s.hasVoidReturn = false) :
    emitEpilogue s
      = { s with
            F := ⟨updAt s.F.blocks b (fun bb =>
              ⟨bb.instrs, some Terminator.unreachable⟩)⟩
            insertPt := none } := by
  obtain ⟨⟨blocks⟩, ip, nv, cl, hvr, eb⟩ := s
  obtain rfl : ip = some b := hip
  obtain rfl : hvr = false := hv
  rfl

theorem wf_spec (s : SILGenFunction) (hwf : s.wfInsertion = true) :
    (∀ b, s.insertPt = some b →
      ∃ bb, s.F.blocks.get? b = some bb ∧ bb.term = none)
    ∧ (∀ i bb, s.F.blocks.get? i = some bb → s.insertPt ≠ some i →
        bb.term.isSome = true) := by
  unfold SILGenFunction.wfInsertion at hwf
  rw [Bool.and_eq_true] at hwf
  obtain ⟨hA, hB⟩ := hwf
  constructor
  · intro b hb
    rw [hb] at hA
    have hA' : ((s.F.blocks.get? b).map (fun bb => bb.term.isNone)).getD false
        = true := hA
    cases hget : s.F.blocks.get? b with
    | none => rw [hget] at hA'; exact absurd hA' (by simp)
    | some bb =>
      rw [hget] at hA'
      refine ⟨bb, rfl, ?_⟩
      simpa using hA'
  · intro i bb hget hne
    obtain ⟨hlt, -⟩ := List.get?_eq_some.mp hget
    have hmem : i ∈ List.range s.F.blocks.length := List.mem_range.mpr hlt
    have hfi := List.all_eq_true.mp hB i hmem
    rw [Bool.or_eq_true] at hfi
    cases hfi with
    | inl h =>
      exact absurd (eq_of_beq h) hne
    | inr h =>
      rw [blockTerminated, hget] at h
      simpa using h

theorem openBlocks_eq_zero (F : Function)
    (h : ∀ i bb, F.blocks.get? i = some bb → bb.term.isSome = true) :
    F.openBlocks = 0 := by
  unfold Function.openBlocks
  rw [List.countP_eq_zero]
  intro bb hmem
  obtain ⟨⟨i, hi⟩, heq⟩ := List.mem_iff_get.mp hmem
  have hget : F.blocks.get? i = some bb := by
    rw [List.get?_eq_get hi, heq]
  have hsome := h i bb hget
  intro hnone
  rw [Option.isNone_iff_eq_none] at hnone
  rw [hnone] at hsome
  simp at hsome

theorem openBlocks_eq_zero_of_upd (blocks : List BasicBlock) (b : Nat)
    (t : Terminator) (g : BasicBlock → BasicBlock)
    (hg : ∀ bb, (g bb).term = some t)
    (hother : ∀ i bb, i ≠ b → blocks.get? i = some bb →
      bb.term.isSome = true) :
    Function.openBlocks ⟨updAt blocks b g⟩ = 0 := by
  apply openBlocks_eq_zero
  intro i bb hget
  by_cases hib : i = b
  · subst hib
    rw [get?_updAt_eq] at hget
    cases hb2 : blocks.get? i with
    | none => rw [hb2] at hget; simp at hget
    | some bb0 =>
      rw [hb2] at hget
      simp only [Option.map_some'] at hget
      have hbb : bb = g bb0 := by
        injection hget with h
        exact h.symm
      rw [hbb, hg bb0]
      rfl
  · rw [get?_updAt_ne _ _ _ _ hib] at hget
    exact hother i bb hib hget

theorem foldl_pushCleanup (ps : List Nat) (s0 : SILGenFunction) :
    (ps.foldl pushCleanup s0).cleanups = ps.reverse ++ s0.cleanups := by
  induction ps generalizing s0 with
  | nil => simp
  | cons p ps ih =>
    rw [List.foldl_cons, ih]
    simp [pushCleanup]

/-- C1: for every IR Function emitted by the lowering pass, after the
end-of-scope epilogue synthesis of the Function Lowering Context runs on a
well-formed builder state, the function contains zero open (unterminated)
basic blocks; if the insertion point is already invalid the epilogue does
nothing, and otherwise it terminates exactly the current block (which was
open), leaving every other block untouched. -/
theorem epilogue_zero_open_blocks (s : SILGenFunction)
    (hwf : s.wfInsertion = true) :
    (emitEpilogue s).F.openBlocks = 0
    ∧ (s.insertPt = none → emitEpilogue s = s)
    ∧ (∀ b, s.insertPt = some b →
        (emitEpilogue s).insertPt = none
        ∧ (∃ bb0 bb1, s.F.blocks.get? b = some bb0
            ∧ (emitEpilogue s).F.blocks.get? b = some bb1
            ∧ bb0.term = none ∧ bb1.term.isSome = true)
        ∧ (∀ i, i ≠ b →
            (emitEpilogue s).F.blocks.get? i = s.F.blocks.get? i)) := by
  obtain ⟨hopen, hterm⟩ := wf_spec s hwf
  cases hip : s.insertPt with
  | none =>
    rw [emitEpilogue_none s hip]
    refine ⟨?_, fun _ => rfl, ?_⟩
    · exact openBlocks_eq_zero _ (fun i bb hget =>
        hterm i bb hget (by rw [hip]; intro h; exact Option.noConfusion h))
    · intro b hb
      exact Option.noConfusion hb
  | some b =>
    obtain ⟨bb0, hbb0, hbb0t⟩ := hopen b hip
    have hother : ∀ i bb, i ≠ b → s.F.blocks.get? i = some bb →
        bb.term.isSome = true := by
      intro i bb hib hget
      refine hterm i bb hget ?_
      rw [hip]
      intro h
      injection h with h2
      exact hib h2.symm
    cases hv : s.hasVoidReturn with
    | true =>
      have he := emitEpilogue_void s b hip hv
      have hF : (emitEpilogue s).F
          = ⟨updAt s.F.blocks b (fun bb =>
              ⟨bb.instrs ++ Instr.emptyTuple s.nextValueId ::
                 s.cleanups.map Instr.cleanup,
               some (Terminator.ret s.nextValueId)⟩)⟩ := by rw [he]
      have hblocks : (emitEpilogue s).F.blocks
          = updAt s.F.blocks b (fun bb =>
              ⟨bb.instrs ++ Instr.emptyTuple s.nextValueId ::
                 s.cleanups.map Instr.cleanup,
               some (Terminator.ret s.nextValueId)⟩) := by rw [he]
      have hipafter : (emitEpilogue s).insertPt = none := by rw [he]
      refine ⟨?_, ?_, ?_⟩
      · rw [hF]
        exact openBlocks_eq_zero_of_upd _ b _ _ (fun bb => rfl) hother
      · intro hnone
        exact Option.noConfusion hnone
      · intro b' hb'
        injection hb' with hb2
        subst hb2
        refine ⟨hipafter,
          ⟨bb0,
           ⟨bb0.instrs ++ Instr.emptyTuple s.nextValueId ::
              s.cleanups.map Instr.cleanup,
            some (Terminator.ret s.nextValueId)⟩,
           hbb0, ?_, hbb0t, rfl⟩, ?_⟩
        · rw [hblocks, get?_updAt_eq, hbb0]
          rfl
        · intro i hib
          rw [hblocks]
          exact get?_updAt_ne _ _ _ _ hib
    | false =>
      have he := emitEpilogue_nonvoid s b hip hv
      have hF : (emitEpilogue s).F
          = ⟨updAt s.F.blocks b (fun bb =>
              ⟨bb.instrs, some Terminator.unreachable⟩)⟩ := by rw [he]
      have hblocks : (emitEpilogue s).F.blocks
          = updAt s.F.blocks b (fun bb =>
              ⟨bb.instrs, some Terminator.unreachable⟩) := by rw [he]
      have hipafter : (emitEpilogue s).insertPt = none := by rw [he]
      refine ⟨?_, ?_, ?_⟩
      · rw [hF]
        exact openBlocks_eq_zero_of_upd _ b _ _ (fun bb => rfl) hother
      · intro hnone
        exact Option.noConfusion hnone
      · intro b' hb'
        injection hb' with hb2
        subst hb2
        refine ⟨hipafter,
          ⟨bb0, ⟨bb0.instrs, some Terminator.unreachable⟩,
           hbb0, ?_, hbb0t, rfl⟩, ?_⟩
        · rw [hblocks, get?_updAt_eq, hbb0]
          rfl
        · intro i hib
          rw [hblocks]
          exact get?_updAt_ne _ _ _ _ hib

/-- A concrete lowering state: a voidable context whose body pushed a
cleanup, branched to a fresh block and appended an instruction there. -/
def exState1 : SILGenFunction :=
  runBody [LowerOp.pushCleanup 3, LowerOp.branchNewBlock, LowerOp.emitInstr 7]
    (SILGenFunction.create ⟨[]⟩ true)

theorem epilogue_zero_open_blocks_witness :
    exState1.wfInsertion = true
    ∧ ((emitEpilogue exState1).F.openBlocks = 0
       ∧ (exState1.insertPt = none → emitEpilogue exState1 = exState1)
       ∧ (∀ b, exState1.insertPt = some b →
           (emitEpilogue exState1).insertPt = none
           ∧ (∃ bb0 bb1, exState1.F.blocks.get? b = some bb0
               ∧ (emitEpilogue exState1).F.blocks.get? b = some bb1
               ∧ bb0.term = none ∧ bb1.term.isSome = true)
           ∧ (∀ i, i ≠ b →
               (emitEpilogue exState1).F.blocks.get? i
                 = exState1.F.blocks.get? i))) :=
  ⟨by decide, epilogue_zero_open_blocks exState1 (by decide)⟩

/-- C2: for a voidable function whose body falls through (insertion point
still valid at epilogue time), the synthesized epilogue appends to the
current block a freshly constructed empty-tuple value, then every cleanup on
the Cleanup Stack in reverse push order, then terminates the block with a
return of that empty tuple; no other block changes; and the cleanup stack
left by any sequence of pushes is the reverse of the push order. -/
theorem void_fallthrough_epilogue (s : SILGenFunction) (b : Nat)
    (bb : BasicBlock) (hv : s.hasVoidReturn = true)
    (hip : s.insertPt = some b) (hbb : s.F.blocks.get? b = some bb) :
    (emitEpilogue s).F.blocks.get? b
      = some ⟨bb.instrs
                ++ Instr.emptyTuple s.nextValueId
                   :: s.cleanups.map Instr.cleanup,
              some (Terminator.ret s.nextValueId)⟩
    ∧ (∀ i, i ≠ b → (emitEpilogue s).F.blocks.get? i = s.F.blocks.get? i)
    ∧ (∀ (s0 : SILGenFunction) (ps : List Nat),
        (ps.foldl pushCleanup s0).cleanups = ps.reverse ++ s0.cleanups) := by
  have he := emitEpilogue_void s b hip hv
  have hblocks : (emitEpilogue s).F.blocks
      = updAt s.F.blocks b (fun bb =>
          ⟨bb.instrs ++ Instr.emptyTuple s.nextValueId ::
             s.cleanups.map Instr.cleanup,
           some (Terminator.ret s.nextValueId)⟩) := by rw [he]
  refine ⟨?_, ?_, ?_⟩
  · rw [hblocks, get?_updAt_eq, hbb]
    rfl
  · intro i hib
    rw [hblocks]
    exact get?_updAt_ne _ _ _ _ hib
  · intro s0 ps
    exact foldl_pushCleanup ps s0

/-- A concrete voidable lowering state whose body emitted an instruction and
pushed two cleanups (1 then 2), then fell through. -/
def exState2 : SILGenFunction :=
  runBody [LowerOp.emitInstr 9, LowerOp.pushCleanup 1, LowerOp.pushCleanup 2]
    (SILGenFunction.create ⟨[]⟩ true)

theorem void_fallthrough_epilogue_witness :
    (exState2.hasVoidReturn = true ∧ exState2.insertPt = some 0
     ∧ exState2.F.blocks.get? 0 = some ⟨[Instr.other 9], none⟩)
    ∧ ((emitEpilogue exState2).F.blocks.get? 0
        = some ⟨(⟨[Instr.other 9], none⟩ : BasicBlock).instrs
                  ++ Instr.emptyTuple exState2.nextValueId
                     :: exState2.cleanups.map Instr.cleanup,
                some (Terminator.ret exState2.nextValueId)⟩
       ∧ (∀ i, i ≠ 0 →
           (emitEpilogue exState2).F.blocks.get? i
             = exState2.F.blocks.get? i)
       ∧ (∀ (s0 : SILGenFunction) (ps : List Nat),
           (ps.foldl pushCleanup s0).cleanups = ps.reverse ++ s0.cleanups)) :=
  ⟨⟨by decide, by decide, by decide⟩,
   void_fallthrough_epilogue exState2 0 ⟨[Instr.other 9], none⟩
     (by decide) (by decide) (by decide)⟩

/-- C3: for a non-voidable function whose body falls through, the
synthesized epilogue terminates the current block with the unreachable
marker — not a return — adds no instructions, changes no other block, and
this layer raises no fault for it (the closure emission policy, which always
uses a non-voidable context, succeeds on a fresh key). -/
theorem nonvoid_fallthrough_epilogue (s : SILGenFunction) (b : Nat)
    (bb : BasicBlock) (hv : s.hasVoidReturn = false)
    (hip : s.insertPt = some b) (hbb : s.F.blocks.get? b = some bb) :
    (emitEpilogue s).F.blocks.get? b
      = some ⟨bb.instrs, some Terminator.unreachable⟩
    ∧ (∀ i, i ≠ b → (emitEpilogue s).F.blocks.get? i = s.F.blocks.get? i)
    ∧ (∀ (ceId : Nat) (ops : List LowerOp) (m : SILModuleS),
        m.hasFunction ⟨ceId, Role.Plain⟩ = false →
        emitClosure ceId ops m
          = Except.ok (postEmitFunction ⟨ceId, Role.Plain⟩
              (lowerBody false ops) m)) := by
  have he := emitEpilogue_nonvoid s b hip hv
  have hblocks : (emitEpilogue s).F.blocks
      = updAt s.F.blocks b (fun bb =>
          ⟨bb.instrs, some Terminator.unreachable⟩) := by rw [he]
  refine ⟨?_, ?_, ?_⟩
  · rw [hblocks, get?_updAt_eq, hbb]
    rfl
  · intro i hib
    rw [hblocks]
    exact get?_updAt_ne _ _ _ _ hib
  · intro ceId ops m hfree
    simp [emitClosure, preEmitFunction, hfree, lowerBody]

/-- A concrete non-voidable lowering state (a closure context) whose body
emitted one instruction and fell through. -/
def exState3 : SILGenFunction :=
  runBody [LowerOp.emitInstr 4] (SILGenFunction.create ⟨[]⟩ false)

theorem nonvoid_fallthrough_epilogue_witness :
    (exState3.hasVoidReturn = false ∧ exState3.insertPt = some 0
     ∧ exState3.F.blocks.get? 0 = some ⟨[Instr.other 4], none⟩)
    ∧ ((emitEpilogue exState3).F.blocks.get? 0
        = some ⟨(⟨[Instr.other 4], none⟩ : BasicBlock).instrs,
                some Terminator.unreachable⟩
       ∧ (∀ i, i ≠ 0 →
           (emitEpilogue exState3).F.blocks.get? i
             = exState3.F.blocks.get? i)
       ∧ (∀ (ceId : Nat) (ops : List LowerOp) (m : SILModuleS),
           m.hasFunction ⟨ceId, Role.Plain⟩ = false →
           emitClosure ceId ops m
             = Except.ok (postEmitFunction ⟨ceId, Role.Plain⟩
                 (lowerBody false ops) m))) :=
  ⟨⟨by decide, by decide, by decide⟩,
   nonvoid_fallthrough_epilogue exState3 0 ⟨[Instr.other 4], none⟩
     (by decide) (by decide) (by decide)⟩

theorem hasFunction_false_not_mem (m : SILModuleS) (c : SILConstant)
    (h : m.hasFunction c = false) : c ∉ m.functions.map Prod.fst := by
  intro hmem
  obtain ⟨p, hp, hpc⟩ := List.mem_map.mp hmem
  have htrue : m.hasFunction c = true := by
    unfold SILModuleS.hasFunction
    rw [List.any_eq_true]
    exact ⟨p, hp, by simp [hpc]⟩
  rw [h] at htrue
  exact Bool.noConfusion htrue

theorem hasFunction_postEmit (m : SILModuleS) (c : SILConstant)
    (f : Function) (c' : SILConstant) :
    (postEmitFunction c f m).hasFunction c'
      = (m.hasFunction c' || decide (c = c')) := by
  unfold postEmitFunction SILModuleS.hasFunction
  simp

theorem nodup_postEmit (m : SILModuleS) (c : SILConstant) (f : Function)
    (hn : (m.functions.map Prod.fst).Nodup) (hc : m.hasFunction c = false) :
    ((postEmitFunction c f m).functions.map Prod.fst).Nodup := by
  unfold postEmitFunction
  simp only [List.map_append, List.map_cons, List.map_nil]
  rw [List.nodup_append]
  refine ⟨hn, List.nodup_singleton c, ?_⟩
  intro a ha hb
  have hac : a = c := by simpa using hb
  subst hac
  exact hasFunction_false_not_mem m a hc ha

theorem emitFunction_ok_cases (declId : Nat) (fe : FuncExpr)
    (m m' : SILModuleS) (h : emitFunction declId fe m = Except.ok m') :
    m' = m
    ∨ ∃ f, m.hasFunction ⟨declId, Role.Plain⟩ = false
        ∧ m' = postEmitFunction ⟨declId, Role.Plain⟩ f m := by
  cases hb : fe.body with
  | none =>
    simp only [emitFunction, hb] at h
    left
    injection h with h2
    exact h2.symm
  | some ops =>
    cases hhf : m.hasFunction ⟨declId, Role.Plain⟩ with
    | true =>
      simp [emitFunction, hb, preEmitFunction, hhf] at h
    | false =>
      simp only [emitFunction, hb, preEmitFunction, hhf] at h
      simp only [Bool.false_eq_true, if_false] at h
      right
      refine ⟨(emitEpilogue (runBody ops
        (SILGenFunction.create ⟨[]⟩ (isVoidableType fe.resultType)))).F,
        rfl, ?_⟩
      injection h with h2
      exact h2.symm

/-- C8: a plain function or constructor declaration with no body (a
prototype) is skipped: no fault is raised and the Function Table and the
whole module state are unchanged. -/
theorem prototype_skip (declId : Nat) (fe : FuncExpr)
    (cd : ConstructorDecl) (m : SILModuleS)
    (hf : fe.body = none) (hc : cd.body = none) :
    emitFunction declId fe m = Except.ok m
    ∧ emitConstructor cd m = Except.ok m := by
  constructor
  · unfold emitFunction
    rw [hf]
  · unfold emitConstructor
    rw [hc]

theorem prototype_skip_witness :
    ((⟨none, Ty.emptyTuple⟩ : FuncExpr).body = none
     ∧ (⟨6, none, true⟩ : ConstructorDecl).body = none)
    ∧ (emitFunction 5 ⟨none, Ty.emptyTuple⟩ ⟨[], none⟩
         = Except.ok ⟨[], none⟩
       ∧ emitConstructor ⟨6, none, true⟩ ⟨[], none⟩
         = Except.ok ⟨[], none⟩) :=
  ⟨⟨rfl, rfl⟩,
   prototype_skip 5 ⟨none, Ty.emptyTuple⟩ ⟨6, none, true⟩ ⟨[], none⟩ rfl rfl⟩

/-- C5: a second emission attempt with an Emission Key already present in
the Function Table faults in preEmit before the table is mutated (the plain
function policy faults the same way), and successful emission never
overwrites: the table's keys stay pairwise distinct across any successful
plain-function emission. -/
theorem no_duplicate_emission (c : SILConstant) (m : SILModuleS)
    (h : m.hasFunction c = true) :
    preEmitFunction c m = Except.error Fault.duplicateEmission
    ∧ (∀ fe : FuncExpr, c.role = Role.Plain → fe.body ≠ none →
        emitFunction c.loc fe m = Except.error Fault.duplicateEmission)
    ∧ (∀ (m2 : SILModuleS) (declId : Nat) (fe : FuncExpr)
         (m2' : SILModuleS),
        (m2.functions.map Prod.fst).Nodup →
        emitFunction declId fe m2 = Except.ok m2' →
        (m2'.functions.map Prod.fst).Nodup) := by
  refine ⟨?_, ?_, ?_⟩
  · unfold preEmitFunction
    rw [if_pos h]
  · intro fe hrole hne
    have hc : (⟨c.loc, Role.Plain⟩ : SILConstant) = c := by
      cases c with
      | mk l r =>
        simp only at hrole
        rw [hrole]
    cases hb : fe.body with
    | none => exact absurd hb hne
    | some ops =>
      simp [emitFunction, hb, preEmitFunction, hc, h]
  · intro m2 declId fe m2' hn hok
    cases emitFunction_ok_cases declId fe m2 m2' hok with
    | inl heq => rw [heq]; exact hn
    | inr hex =>
      obtain ⟨f, hfree, heq⟩ := hex
      rw [heq]
      exact nodup_postEmit m2 _ f hn hfree

theorem no_duplicate_emission_witness :
    (SILModuleS.hasFunction
        ⟨[(⟨1, Role.Plain⟩, ⟨[]⟩)], none⟩ ⟨1, Role.Plain⟩ = true)
    ∧ (preEmitFunction ⟨1, Role.Plain⟩ ⟨[(⟨1, Role.Plain⟩, ⟨[]⟩)], none⟩
         = Except.error Fault.duplicateEmission
       ∧ (∀ fe : FuncExpr,
           (⟨1, Role.Plain⟩ : SILConstant).role = Role.Plain →
           fe.body ≠ none →
           emitFunction (⟨1, Role.Plain⟩ : SILConstant).loc fe
               ⟨[(⟨1, Role.Plain⟩, ⟨[]⟩)], none⟩
             = Except.error Fault.duplicateEmission)
       ∧ (∀ (m2 : SILModuleS) (declId : Nat) (fe : FuncExpr)
            (m2' : SILModuleS),
           (m2.functions.map Prod.fst).Nodup →
           emitFunction declId fe m2 = Except.ok m2' →
           (m2'.functions.map Prod.fst).Nodup)) :=
  ⟨by decide,
   no_duplicate_emission ⟨1, Role.Plain⟩ ⟨[(⟨1, Role.Plain⟩, ⟨[]⟩)], none⟩
     (by decide)⟩

/-- C4: a constructor declaration with a body splits by semantics: for a
reference-semantics type, exactly two Emission Keys and two lowering
contexts — the allocator entry point (role Allocator) and the initializer
(role Initializer), each independently preEmit/postEmit'd, both lowered in
voidable contexts; for a value-semantics type, exactly one Emission Key
(role Plain) and one voidable context. -/
theorem constructor_splitting (cd : ConstructorDecl) (ops : List LowerOp)
    (m : SILModuleS) (hbody : cd.body = some ops)
    (h1 : m.hasFunction ⟨cd.declId, cd.defaultRole⟩ = false)
    (h2 : m.hasFunction ⟨cd.declId, Role.Initializer⟩ = false) :
    (cd.thisHasReferenceSemantics = true →
      emitConstructor cd m
        = Except.ok { m with functions := m.functions
            ++ [(⟨cd.declId, Role.Allocator⟩, lowerBody true ops),
                (⟨cd.declId, Role.Initializer⟩, lowerBody true ops)] })
    ∧ (cd.thisHasReferenceSemantics = false →
      emitConstructor cd m
        = Except.ok { m with functions := m.functions
            ++ [(⟨cd.declId, Role.Plain⟩, lowerBody true ops)] }) := by
  constructor
  · intro href
    have hrole : cd.defaultRole = Role.Allocator := by
      unfold ConstructorDecl.defaultRole
      rw [href]
      rfl
    rw [hrole] at h1
    have hpost : ∀ f' : Function,
        (postEmitFunction ⟨cd.declId, Role.Allocator⟩ f' m).hasFunction
          ⟨cd.declId, Role.Initializer⟩ = false := by
      intro f'
      rw [hasFunction_postEmit, h2]
      simp
    simp only [emitConstructor, hbody, preEmitFunction, hrole, h1, href,
      hpost, Bool.false_eq_true, if_false, if_true]
    simp [postEmitFunction, lowerBody]
  · intro href
    have hrole : cd.defaultRole = Role.Plain := by
      unfold ConstructorDecl.defaultRole
      rw [href]
      rfl
    rw [hrole] at h1
    simp only [emitConstructor, hbody, preEmitFunction, hrole, h1, href,
      Bool.false_eq_true, if_false]
    simp [postEmitFunction, lowerBody]

theorem constructor_splitting_witness :
    ((⟨5, some [], true⟩ : ConstructorDecl).body = some []
     ∧ SILModuleS.hasFunction ⟨[], none⟩
         ⟨5, (⟨5, some [], true⟩ : ConstructorDecl).defaultRole⟩ = false
     ∧ SILModuleS.hasFunction ⟨[], none⟩ ⟨5, Role.Initializer⟩ = false)
    ∧ (((⟨5, some [], true⟩ : ConstructorDecl).thisHasReferenceSemantics
          = true →
        emitConstructor ⟨5, some [], true⟩ ⟨[], none⟩
          = Except.ok ⟨([] : List (SILConstant × Function))
                ++ [(⟨5, Role.Allocator⟩, lowerBody true []),
                    (⟨5, Role.Initializer⟩, lowerBody true [])], none⟩)
       ∧ ((⟨5, some [], true⟩ : ConstructorDecl).thisHasReferenceSemantics
            = false →
          emitConstructor ⟨5, some [], true⟩ ⟨[], none⟩
            = Except.ok ⟨([] : List (SILConstant × Function))
                  ++ [(⟨5, Role.Plain⟩, lowerBody true [])], none⟩)) :=
  ⟨⟨rfl, by decide, by decide⟩,
   constructor_splitting ⟨5, some [], true⟩ [] ⟨[], none⟩
     rfl (by decide) (by decide)⟩

/-- C6: at Type Lowering Coordinator scope exit for a reference-semantics
(class) type, exactly one Destructor-role Emission Key for that type is
emitted into the Function Table, whether or not an explicit destructor was
registered; on a table with no such key, the resulting table holds exactly
one. -/
theorem destructor_guarantee (t : NominalTypeDecl)
    (dd : Option (List LowerOp)) (m : SILModuleS)
    (hclass : t.isClass = true)
    (hfresh : m.hasFunction ⟨t.declId, Role.Destructor⟩ = false) :
    SILGenType.finish ⟨t, dd⟩ m
      = Except.ok (postEmitFunction ⟨t.declId, Role.Destructor⟩
          (lowerBody true (dd.getD [])) m)
    ∧ (((postEmitFunction ⟨t.declId, Role.Destructor⟩
          (lowerBody true (dd.getD [])) m).functions.map Prod.fst).count
          ⟨t.declId, Role.Destructor⟩ = 1) := by
  have h0 : (m.functions.map Prod.fst).count
      (⟨t.declId, Role.Destructor⟩ : SILConstant) = 0 :=
    List.count_eq_zero.mpr (hasFunction_false_not_mem m _ hfresh)
  constructor
  · simp only [SILGenType.finish, hclass, if_true, emitDestructor,
      preEmitFunction, hfresh, Bool.false_eq_true, if_false]
    simp [lowerBody]
  · simp [postEmitFunction, List.count_append, h0]

theorem destructor_guarantee_witness :
    ((⟨2, true⟩ : NominalTypeDecl).isClass = true
     ∧ SILModuleS.hasFunction ⟨[], none⟩ ⟨2, Role.Destructor⟩ = false)
    ∧ (SILGenType.finish ⟨⟨2, true⟩, none⟩ ⟨[], none⟩
        = Except.ok (postEmitFunction ⟨2, Role.Destructor⟩
            (lowerBody true ((none : Option (List LowerOp)).getD []))
            ⟨[], none⟩)
       ∧ (((postEmitFunction ⟨2, Role.Destructor⟩
            (lowerBody true ((none : Option (List LowerOp)).getD []))
            ⟨[], none⟩).functions.map Prod.fst).count
            ⟨2, Role.Destructor⟩ = 1)) :=
  ⟨⟨rfl, by decide⟩,
   destructor_guarantee ⟨2, true⟩ none ⟨[], none⟩ rfl (by decide)⟩

/-- C9: at Type Lowering Coordinator scope exit for a non-reference-
semantics type, a registered explicit destructor raises the
programming-error-class fault, and with no registered destructor nothing is
emitted: the module state is returned unchanged. -/
theorem value_type_destructor_fault (t : NominalTypeDecl)
    (dd : List LowerOp) (m : SILModuleS) (hnc : t.isClass = false) :
    SILGenType.finish ⟨t, some dd⟩ m
      = Except.error Fault.destructorInNonClass
    ∧ SILGenType.finish ⟨t, none⟩ m = Except.ok m := by
  constructor
  · simp [SILGenType.finish, hnc]
  · simp [SILGenType.finish, hnc]

theorem value_type_destructor_fault_witness :
    ((⟨3, false⟩ : NominalTypeDecl).isClass = false)
    ∧ (SILGenType.finish ⟨⟨3, false⟩, some []⟩ ⟨[], none⟩
        = Except.error Fault.destructorInNonClass
       ∧ SILGenType.finish ⟨⟨3, false⟩, none⟩ ⟨[], none⟩
        = Except.ok ⟨[], none⟩) :=
  ⟨rfl, value_type_destructor_fault ⟨3, false⟩ [] ⟨[], none⟩ rfl⟩

theorem appendInstr_hasVoidReturn (s : SILGenFunction) (i : Instr) :
    (appendInstr s i).hasVoidReturn = s.hasVoidReturn := by
  unfold appendInstr
  cases s.insertPt <;> rfl

theorem setTerminator_hasVoidReturn (s : SILGenFunction) (t : Terminator) :
    (setTerminator s t).hasVoidReturn = s.hasVoidReturn := by
  unfold setTerminator
  cases s.insertPt <;> rfl

theorem foldl_cleanup_hasVoidReturn (cs : List Nat) (s : SILGenFunction) :
    (cs.foldl (fun st c => appendInstr st (Instr.cleanup c)) s).hasVoidReturn
      = s.hasVoidReturn := by
  induction cs generalizing s with
  | nil => rfl
  | cons c cs ih =>
    rw [List.foldl_cons, ih, appendInstr_hasVoidReturn]

theorem emitReturnAndCleanups_hasVoidReturn (s : SILGenFunction)
    (v : Value) :
    (emitReturnAndCleanups s v).hasVoidReturn = s.hasVoidReturn := by
  unfold emitReturnAndCleanups createReturn
  rw [setTerminator_hasVoidReturn]
  exact foldl_cleanup_hasVoidReturn s.cleanups s

theorem createEmptyTuple_hasVoidReturn (s : SILGenFunction) :
    (createEmptyTuple s).2.hasVoidReturn = s.hasVoidReturn :=
  appendInstr_hasVoidReturn s (Instr.emptyTuple s.nextValueId)

theorem runOp_hasVoidReturn (s : SILGenFunction) (op : LowerOp) :
    (runOp s op).hasVoidReturn = s.hasVoidReturn := by
  cases op with
  | emitInstr id => exact appendInstr_hasVoidReturn s _
  | pushCleanup id => rfl
  | retUnit =>
    unfold runOp
    cases hip : s.insertPt with
    | none => rfl
    | some b =>
      show (emitReturnAndCleanups (createEmptyTuple s).2
        (createEmptyTuple s).1).hasVoidReturn = s.hasVoidReturn
      rw [emitReturnAndCleanups_hasVoidReturn,
        createEmptyTuple_hasVoidReturn]
  | branchNewBlock =>
    unfold runOp
    cases hip : s.insertPt with
    | none => rfl
    | some b =>
      exact setTerminator_hasVoidReturn s (Terminator.br s.F.blocks.length)

theorem runBody_hasVoidReturn (ops : List LowerOp) (s : SILGenFunction) :
    (runBody ops s).hasVoidReturn = s.hasVoidReturn := by
  induction ops generalizing s with
  | nil => rfl
  | cons op ops ih =>
    have h1 : runBody (op :: ops) s = runBody ops (runOp s op) := rfl
    rw [h1, ih, runOp_hasVoidReturn]

theorem emitConstructor_toplevel (cd : ConstructorDecl) (m m' : SILModuleS)
    (h : emitConstructor cd m = Except.ok m') :
    m'.toplevel = m.toplevel := by
  simp only [emitConstructor] at h
  repeat' split at h
  all_goals
    first
      | exact Except.noConfusion h
      | (injection h with h2; subst h2; rfl)

theorem emitFunction_toplevel (declId : Nat) (fe : FuncExpr)
    (m m' : SILModuleS) (h : emitFunction declId fe m = Except.ok m') :
    m'.toplevel = m.toplevel := by
  cases emitFunction_ok_cases declId fe m m' h with
  | inl he => rw [he]
  | inr he =>
    obtain ⟨f, -, he⟩ := he
    rw [he]
    rfl

theorem visitDecl_inv (d : Decl) (s s' : SGMState)
    (h : visitDecl d s = Except.ok s') :
    s'.topLevelSGF.isSome = s.topLevelSGF.isSome
    ∧ (∀ g', s'.topLevelSGF = some g' →
        ∃ g, s.topLevelSGF = some g ∧ g'.hasVoidReturn = g.hasVoidReturn)
    ∧ s'.m.toplevel = s.m.toplevel := by
  cases d with
  | func declId fe =>
    simp only [visitDecl] at h
    cases hem : emitFunction declId fe s.m with
    | error e =>
      rw [hem] at h
      exact Except.noConfusion h
    | ok m2 =>
      rw [hem] at h
      have h2 : ({ s with m := m2 } : SGMState) = s' := by
        injection h
      rw [← h2]
      exact ⟨rfl, fun g' hg => ⟨g', hg, rfl⟩,
        emitFunction_toplevel declId fe s.m m2 hem⟩
  | constructor cd =>
    simp only [visitDecl] at h
    cases hem : emitConstructor cd s.m with
    | error e =>
      rw [hem] at h
      exact Except.noConfusion h
    | ok m2 =>
      rw [hem] at h
      have h2 : ({ s with m := m2 } : SGMState) = s' := by
        injection h
      rw [← h2]
      exact ⟨rfl, fun g' hg => ⟨g', hg, rfl⟩,
        emitConstructor_toplevel cd s.m m2 hem⟩
  | patternBinding =>
    have h2 : s = s' := by injection h
    rw [← h2]
    exact ⟨rfl, fun g' hg => ⟨g', hg, rfl⟩, rfl⟩
  | topLevelCode ops =>
    have h2 : ({ s with topLevelSGF := s.topLevelSGF.map (runBody ops) }
        : SGMState) = s' := by
      injection h
    rw [← h2]
    refine ⟨by simp, ?_, rfl⟩
    intro g' hg'
    cases htl : s.topLevelSGF with
    | none =>
      rw [htl] at hg'
      exact Option.noConfusion hg'
    | some g =>
      rw [htl] at hg'
      simp only [Option.map_some'] at hg'
      injection hg' with hg2
      exact ⟨g, rfl, by rw [← hg2, runBody_hasVoidReturn]⟩

theorem runDecls_inv (ds : List Decl) (s s' : SGMState)
    (h : runDecls ds s = Except.ok s') :
    s'.topLevelSGF.isSome = s.topLevelSGF.isSome
    ∧ (∀ g', s'.topLevelSGF = some g' →
        ∃ g, s.topLevelSGF = some g ∧ g'.hasVoidReturn = g.hasVoidReturn)
    ∧ s'.m.toplevel = s.m.toplevel := by
  induction ds generalizing s with
  | nil =>
    have h2 : s = s' := by injection h
    rw [← h2]
    exact ⟨rfl, fun g' hg => ⟨g', hg, rfl⟩, rfl⟩
  | cons d ds ih =>
    unfold runDecls at h
    cases hv : visitDecl d s with
    | error e =>
      rw [hv] at h
      exact Except.noConfusion h
    | ok s1 =>
      rw [hv] at h
      obtain ⟨a1, a2, a3⟩ := ih s1 h
      obtain ⟨b1, b2, b3⟩ := visitDecl_inv d s s1 hv
      refine ⟨a1.trans b1, ?_, a3.trans b3⟩
      intro g' hg'
      obtain ⟨g1, hg1, hvr1⟩ := a2 g' hg'
      obtain ⟨g0, hg0, hvr0⟩ := b2 g1 hg1
      exact ⟨g0, hg0, hvr1.trans hvr0⟩

theorem voidable_fallthrough_unit_return (sgf : SILGenFunction)
    (hv : sgf.hasVoidReturn = true) (hwf : sgf.wfInsertion = true)
    (b : Nat) (hip : sgf.insertPt = some b) :
    ∃ bb, (emitEpilogue sgf).F.blocks.get? b = some bb
      ∧ bb.term = some (Terminator.ret sgf.nextValueId)
      ∧ Instr.emptyTuple sgf.nextValueId ∈ bb.instrs := by
  obtain ⟨hopen, -⟩ := wf_spec sgf hwf
  obtain ⟨bb0, hbb0, -⟩ := hopen b hip
  have he := emitEpilogue_void sgf b hip hv
  have hblocks : (emitEpilogue sgf).F.blocks
      = updAt sgf.F.blocks b (fun bb =>
          ⟨bb.instrs ++ Instr.emptyTuple sgf.nextValueId ::
             sgf.cleanups.map Instr.cleanup,
           some (Terminator.ret sgf.nextValueId)⟩) := by rw [he]
  refine ⟨⟨bb0.instrs ++ Instr.emptyTuple sgf.nextValueId ::
      sgf.cleanups.map Instr.cleanup,
      some (Terminator.ret sgf.nextValueId)⟩, ?_, rfl, ?_⟩
  · rw [hblocks, get?_updAt_eq, hbb0]
    rfl
  · exact List.mem_append_right _ (List.mem_cons_self _ _)

/-- C7: the module construction entry point creates the output module with
an implicit top-level IR function present exactly for the Main
(executable-entry-point) and Repl (interactive) translation-unit kinds and
absent for Library; when present, the top-level function was finalized
through a voidable lowering context, so a top-level body that falls through
ends in a return of a freshly constructed unit value. -/
theorem toplevel_context (tu : TranslationUnit) (m' : SILModuleS)
    (h : constructSIL tu = Except.ok m') :
    (m'.toplevel.isSome = true
      ↔ (tu.kind = TUKind.Main ∨ tu.kind = TUKind.Repl))
    ∧ (∀ f, m'.toplevel = some f →
        ∃ sgf : SILGenFunction, sgf.hasVoidReturn = true
          ∧ f = (emitEpilogue sgf).F)
    ∧ (∀ sgf : SILGenFunction, sgf.hasVoidReturn = true →
        sgf.wfInsertion = true → ∀ b, sgf.insertPt = some b →
        ∃ bb, (emitEpilogue sgf).F.blocks.get? b = some bb
          ∧ bb.term = some (Terminator.ret sgf.nextValueId)
          ∧ Instr.emptyTuple sgf.nextValueId ∈ bb.instrs) := by
  have hmain : (m'.toplevel.isSome = true
      ↔ (tu.kind = TUKind.Main ∨ tu.kind = TUKind.Repl))
      ∧ (∀ f, m'.toplevel = some f →
          ∃ sgf : SILGenFunction, sgf.hasVoidReturn = true
            ∧ f = (emitEpilogue sgf).F) := by
    cases hk : tu.kind with
    | Library =>
      simp only [constructSIL, hk] at h
      cases hrd : runDecls tu.decls (SILGenModule.start false) with
      | error e =>
        rw [hrd] at h
        exact Except.noConfusion h
      | ok sfin =>
        rw [hrd] at h
        have h2 : Except.ok (SILGenModule.finish sfin) = Except.ok m' := h
        injection h2 with h3
        obtain ⟨a1, a2, a3⟩ := runDecls_inv _ _ _ hrd
        have hnone : sfin.topLevelSGF = none := by
          cases hsf : sfin.topLevelSGF with
          | none => rfl
          | some g =>
            rw [hsf] at a1
            simp [SILGenModule.start] at a1
        have hfin : SILGenModule.finish sfin = sfin.m := by
          unfold SILGenModule.finish
          rw [hnone]
        have htl : m'.toplevel = none := by
          rw [← h3, hfin, a3]
          rfl
        constructor
        · rw [htl]
          simp
        · intro f hf
          rw [htl] at hf
          exact Option.noConfusion hf
    | Main =>
      simp only [constructSIL, hk] at h
      cases hrd : runDecls tu.decls (SILGenModule.start true) with
      | error e =>
        rw [hrd] at h
        exact Except.noConfusion h
      | ok sfin =>
        rw [hrd] at h
        have h2 : Except.ok (SILGenModule.finish sfin) = Except.ok m' := h
        injection h2 with h3
        obtain ⟨a1, a2, -⟩ := runDecls_inv _ _ _ hrd
        have ha1 : sfin.topLevelSGF.isSome = true := by
          rw [a1]
          rfl
        obtain ⟨g', hg'⟩ := Option.isSome_iff_exists.mp ha1
        obtain ⟨g0, hg0, hvr⟩ := a2 g' hg'
        have hg0' : g0 = SILGenFunction.create ⟨[]⟩ true := by
          have hst : (SILGenModule.start true).topLevelSGF
              = some (SILGenFunction.create ⟨[]⟩ true) := rfl
          rw [hst] at hg0
          injection hg0 with hh
          exact hh.symm
        have hvr' : g'.hasVoidReturn = true := by
          rw [hvr, hg0']
          rfl
        have hfin : SILGenModule.finish sfin
            = { sfin.m with toplevel := some (emitEpilogue g').F } := by
          unfold SILGenModule.finish
          rw [hg']
        have htl : m'.toplevel = some (emitEpilogue g').F := by
          rw [← h3, hfin]
        constructor
        · rw [htl]
          simp
        · intro f hf
          rw [htl] at hf
          injection hf with hf2
          exact ⟨g', hvr', hf2.symm⟩
    | Repl =>
      simp only [constructSIL, hk] at h
      cases hrd : runDecls tu.decls (SILGenModule.start true) with
      | error e =>
        rw [hrd] at h
        exact Except.noConfusion h
      | ok sfin =>
        rw [hrd] at h
        have h2 : Except.ok (SILGenModule.finish sfin) = Except.ok m' := h
        injection h2 with h3
        obtain ⟨a1, a2, -⟩ := runDecls_inv _ _ _ hrd
        have ha1 : sfin.topLevelSGF.isSome = true := by
          rw [a1]
          rfl
        obtain ⟨g', hg'⟩ := Option.isSome_iff_exists.mp ha1
        obtain ⟨g0, hg0, hvr⟩ := a2 g' hg'
        have hg0' : g0 = SILGenFunction.create ⟨[]⟩ true := by
          have hst : (SILGenModule.start true).topLevelSGF
              = some (SILGenFunction.create ⟨[]⟩ true) := rfl
          rw [hst] at hg0
          injection hg0 with hh
          exact hh.symm
        have hvr' : g'.hasVoidReturn = true := by
          rw [hvr, hg0']
          rfl
        have hfin : SILGenModule.finish sfin
            = { sfin.m with toplevel := some (emitEpilogue g').F } := by
          unfold SILGenModule.finish
          rw [hg']
        have htl : m'.toplevel = some (emitEpilogue g').F := by
          rw [← h3, hfin]
        constructor
        · rw [htl]
          simp
        · intro f hf
          rw [htl] at hf
          injection hf with hf2
          exact ⟨g', hvr', hf2.symm⟩
  exact ⟨hmain.1, hmain.2, fun sgf hv hwf b hip =>
    voidable_fallthrough_unit_return sgf hv hwf b hip⟩

theorem toplevel_context_witness :
    constructSIL ⟨TUKind.Main, []⟩
      = Except.ok
          ⟨[], some ⟨[⟨[Instr.emptyTuple 0], some (Terminator.ret 0)⟩]⟩⟩
    ∧ (((⟨[], some ⟨[⟨[Instr.emptyTuple 0], some (Terminator.ret 0)⟩]⟩⟩ :
          SILModuleS).toplevel.isSome = true
          ↔ ((⟨TUKind.Main, []⟩ : TranslationUnit).kind = TUKind.Main
             ∨ (⟨TUKind.Main, []⟩ : TranslationUnit).kind = TUKind.Repl))
       ∧ (∀ f,
           (⟨[], some ⟨[⟨[Instr.emptyTuple 0], some (Terminator.ret 0)⟩]⟩⟩ :
             SILModuleS).toplevel = some f →
           ∃ sgf : SILGenFunction, sgf.hasVoidReturn = true
             ∧ f = (emitEpilogue sgf).F)
       ∧ (∀ sgf : SILGenFunction, sgf.hasVoidReturn = true →
           sgf.wfInsertion = true → ∀ b, sgf.insertPt = some b →
           ∃ bb, (emitEpilogue sgf).F.blocks.get? b = some bb
             ∧ bb.term = some (Terminator.ret sgf.nextValueId)
             ∧ Instr.emptyTuple sgf.nextValueId ∈ bb.instrs)) :=
  ⟨rfl, toplevel_context ⟨TUKind.Main, []⟩
    ⟨[], some ⟨[⟨[Instr.emptyTuple 0], some (Terminator.ret 0)⟩]⟩⟩ rfl⟩

theorem appendInstr_length (s : SILGenFunction) (i : Instr) :
    (appendInstr s i).F.blocks.length = s.F.blocks.length := by
  unfold appendInstr
  cases s.insertPt with
  | none => rfl
  | some b => exact updAt_length _ _ _

theorem setTerminator_length (s : SILGenFunction) (t : Terminator) :
    (setTerminator s t).F.blocks.length = s.F.blocks.length := by
  unfold setTerminator
  cases s.insertPt with
  | none => rfl
  | some b => exact updAt_length _ _ _

theorem foldl_cleanup_length (cs : List Nat) (s : SILGenFunction) :
    (cs.foldl (fun st c => appendInstr st (Instr.cleanup c)) s).F.blocks.length
      = s.F.blocks.length := by
  induction cs generalizing s with
  | nil => rfl
  | cons c cs ih =>
    rw [List.foldl_cons, ih, appendInstr_length]

theorem emitReturnAndCleanups_length (s : SILGenFunction) (v : Value) :
    (emitReturnAndCleanups s v).F.blocks.length = s.F.blocks.length := by
  unfold emitReturnAndCleanups createReturn
  rw [setTerminator_length]
  exact foldl_cleanup_length s.cleanups s

theorem emitEpilogue_length (s : SILGenFunction) :
    (emitEpilogue s).F.blocks.length = s.F.blocks.length := by
  cases hip : s.insertPt with
  | none => rw [emitEpilogue_none s hip]
  | some b =>
    cases hv : s.hasVoidReturn with
    | true =>
      rw [emitEpilogue_void s b hip hv]
      exact updAt_length _ _ _
    | false =>
      rw [emitEpilogue_nonvoid s b hip hv]
      exact updAt_length _ _ _

theorem runOp_length_le (s : SILGenFunction) (op : LowerOp) :
    s.F.blocks.length ≤ (runOp s op).F.blocks.length := by
  cases op with
  | emitInstr id => exact Nat.le_of_eq (appendInstr_length s _).symm
  | pushCleanup id => exact Nat.le_refl _
  | retUnit =>
    unfold runOp
    cases hip : s.insertPt with
    | none => exact Nat.le_refl _
    | some b =>
      show s.F.blocks.length
        ≤ (emitReturnAndCleanups (createEmptyTuple s).2
            (createEmptyTuple s).1).F.blocks.length
      rw [emitReturnAndCleanups_length]
      exact Nat.le_of_eq (appendInstr_length s _).symm
  | branchNewBlock =>
    unfold runOp
    cases hip : s.insertPt with
    | none => exact Nat.le_refl _
    | some b =>
      show s.F.blocks.length
        ≤ ((setTerminator s (Terminator.br s.F.blocks.length)).F.blocks
            ++ [(⟨[], none⟩ : BasicBlock)]).length
      rw [List.length_append, setTerminator_length]
      exact Nat.le_succ _

theorem runBody_length_le (ops : List LowerOp) (s : SILGenFunction) :
    s.F.blocks.length ≤ (runBody ops s).F.blocks.length := by
  induction ops generalizing s with
  | nil => exact Nat.le_refl _
  | cons op ops ih =>
    have h1 : runBody (op :: ops) s = runBody ops (runOp s op) := rfl
    rw [h1]
    exact Nat.le_trans (runOp_length_le s op) (ih (runOp s op))

/-- C10: the Function Lowering Context's constructor creates a fresh entry
basic block in the owned function and makes it the initial insertion point;
consequently every lowered function has at least one basic block, and a
function whose body appends nothing ends as a single entry block terminated
by the synthesized epilogue. -/
theorem entry_block_invariant :
    (∀ (shell : Function) (v : Bool),
      (SILGenFunction.create shell v).F.blocks.get? shell.blocks.length
          = some ⟨[], none⟩
        ∧ (SILGenFunction.create shell v).insertPt
            = some shell.blocks.length
        ∧ (SILGenFunction.create shell v).F.blocks.length
            = shell.blocks.length + 1)
    ∧ (∀ (v : Bool) (ops : List LowerOp),
        1 ≤ (lowerBody v ops).blocks.length)
    ∧ (∀ v : Bool, (lowerBody v []).blocks.length = 1
        ∧ ∃ bb, (lowerBody v []).blocks.get? 0 = some bb
            ∧ bb.term.isSome = true) := by
  refine ⟨?_, ?_, ?_⟩
  · intro shell v
    refine ⟨?_, rfl, by simp [SILGenFunction.create]⟩
    show (shell.blocks ++ [(⟨[], none⟩ : BasicBlock)]).get? shell.blocks.length
      = some ⟨[], none⟩
    exact List.get?_concat_length _ _
  · intro v ops
    have h1 : (lowerBody v ops).blocks.length
        = (runBody ops (SILGenFunction.create ⟨[]⟩ v)).F.blocks.length := by
      unfold lowerBody
      rw [emitEpilogue_length]
    rw [h1]
    have h2 := runBody_length_le ops (SILGenFunction.create ⟨[]⟩ v)
    have h3 : (SILGenFunction.create ⟨[]⟩ v).F.blocks.length = 1 := rfl
    rw [h3] at h2
    exact h2
  · intro v
    cases v with
    | false =>
      exact ⟨rfl, ⟨⟨[], some Terminator.unreachable⟩, rfl, rfl⟩⟩
    | true =>
      exact ⟨rfl,
        ⟨⟨[Instr.emptyTuple 0], some (Terminator.ret 0)⟩, rfl, rfl⟩⟩

end SILGen
